import Mathlib

/-!
# DarkVault — verification of the vault ledger and client cipher flow

Shallow embedding of the `DarkVault` Solidity contract (per-owner vault
records: an encrypted key handle, an `initialized` flag and an append-only
list of ciphertext strings) together with the client-side envelope cipher
from `VaultApp.tsx` (`deriveKey` / `encryptSecret` / `decryptSecret`).

The FHE access layer (`FHE.fromExternal`, `FHE.allowThis`, `FHE.allow`) is
external to the contract; it is modelled by an abstract environment
providing input validation, and by an access-control list kept in the
ledger state.  Transaction semantics follow the host chain: a reverting
call leaves the state unchanged.
-/

namespace DarkVault

/-- Owner / account identities (EVM addresses, abstracted). -/
abbrev Address := Nat

/-- Validated encrypted-value handles (`eaddress`, a bytes32 handle). -/
abbrev Handle := Nat

/-- External (not yet validated) encrypted inputs (`externalEaddress`). -/
abbrev ExtInput := Nat

/-- Input proofs (`bytes calldata inputProof`). -/
abbrev Proof := List Nat

/-- The `Vault` struct of the contract: encrypted key handle, the
`initialized` flag, and the append-only `ciphertexts` array.  Solidity's
default (absent) mapping value is `{ encryptedKey := 0, initialized :=
false, ciphertexts := [] }`. -/
structure Vault where
  encryptedKey : Handle := 0
  initialized : Bool := false
  ciphertexts : List String := []
  deriving Repr, DecidableEq

/-- Contract errors, plus `InvalidInput` for a revert raised by
`FHE.fromExternal` on a proof that does not validate. -/
inductive VaultError where
  | VaultAlreadyExists
  | VaultMissing
  | SecretIndexOutOfBounds
  | InvalidInput
  deriving Repr, DecidableEq

/-- Contract events. -/
inductive Event where
  | VaultCreated (owner : Address)
  | VaultKeyRotated (owner : Address)
  | SecretStored (owner : Address) (index : Nat)
  deriving Repr, DecidableEq

/-- Ledger state: the `vaults` mapping, plus the access-control list of
the FHE coprocessor (`acl h` lists the identities allowed to request
decryption of handle `h`). -/
structure DVState where
  vaults : Address → Vault
  acl : Handle → List Address

/-- The state of a freshly deployed contract: every vault is the default
record and no grants exist. -/
def initialState : DVState :=
  { vaults := fun _ => {}, acl := fun _ => [] }

/-- The external FHE validation capability: `FHE.fromExternal` either
produces a validated handle or reverts (`none`). -/
structure FHEEnv where
  fromExternal : ExtInput → Proof → Option Handle

/-- Model of `FHE.allow(h, a)` / `FHE.allowThis(h)`: extend the grant set of
handle `h` with identity `a`. -/
def allow (h : Handle) (a : Address) (s : DVState) : DVState :=
  { s with acl := fun h2 => if h2 = h then a :: s.acl h2 else s.acl h2 }

/-- Update the `sender` entry of the `vaults` mapping. -/
def setVault (sender : Address) (v : Vault) (s : DVState) : DVState :=
  { s with vaults := fun a => if a = sender then v else s.vaults a }

/-- Model of `createVault(encryptedKey, inputProof)` called by `sender` on a
contract deployed at `this`: reverts with `VaultAlreadyExists` if the
sender's vault is initialized; otherwise validates the input, stores the
validated key, sets `initialized := true`, grants access to the contract
and to the sender, and emits `VaultCreated(sender)`. -/
def createVault (env : FHEEnv) (this sender : Address) (encryptedKey : ExtInput)
    (inputProof : Proof) (s : DVState) : Except VaultError (DVState × Event) :=
  if (s.vaults sender).initialized then
    .error .VaultAlreadyExists
  else
    match env.fromExternal encryptedKey inputProof with
    | none => .error .InvalidInput
    | some validatedKey =>
      let s1 := setVault sender
        { s.vaults sender with encryptedKey := validatedKey, initialized := true } s
      let s2 := allow validatedKey this s1
      let s3 := allow validatedKey sender s2
      .ok (s3, .VaultCreated sender)

/-- Model of `rotateVaultKey(encryptedKey, inputProof)`: reverts with
`VaultMissing` if the sender's vault is not initialized; otherwise
validates the input, overwrites the stored key, re-grants access, and
emits `VaultKeyRotated(sender)`. -/
def rotateVaultKey (env : FHEEnv) (this sender : Address) (encryptedKey : ExtInput)
    (inputProof : Proof) (s : DVState) : Except VaultError (DVState × Event) :=
  if !(s.vaults sender).initialized then
    .error .VaultMissing
  else
    match env.fromExternal encryptedKey inputProof with
    | none => .error .InvalidInput
    | some validatedKey =>
      let s1 := setVault sender { s.vaults sender with encryptedKey := validatedKey } s
      let s2 := allow validatedKey this s1
      let s3 := allow validatedKey sender s2
      .ok (s3, .VaultKeyRotated sender)

/-- Model of `storeSecret(ciphertext)`: reverts with `VaultMissing` if the
sender's vault is not initialized; otherwise appends the ciphertext and
emits `SecretStored(sender, newLength - 1)`. -/
def storeSecret (sender : Address) (ciphertext : String) (s : DVState) :
    Except VaultError (DVState × Event) :=
  if !(s.vaults sender).initialized then
    .error .VaultMissing
  else
    let v := s.vaults sender
    let s1 := setVault sender { v with ciphertexts := v.ciphertexts ++ [ciphertext] } s
    .ok (s1, .SecretStored sender ((v.ciphertexts ++ [ciphertext]).length - 1))

/-- View `hasVault(owner)`. -/
def hasVault (s : DVState) (owner : Address) : Bool :=
  (s.vaults owner).initialized

/-- View `getVaultKey(owner)`. -/
def getVaultKey (s : DVState) (owner : Address) : Handle :=
  (s.vaults owner).encryptedKey

/-- View `getSecretCount(owner)`. -/
def getSecretCount (s : DVState) (owner : Address) : Nat :=
  (s.vaults owner).ciphertexts.length

/-- View `getSecret(owner, index)`: reverts with
`SecretIndexOutOfBounds` when `index` is not below the array length. -/
def getSecret (s : DVState) (owner : Address) (index : Nat) : Except VaultError String :=
  if index ≥ (s.vaults owner).ciphertexts.length then
    .error .SecretIndexOutOfBounds
  else
    .ok ((s.vaults owner).ciphertexts.getD index "")

/-- A transaction: one external mutating call together with its sender. -/
inductive Tx where
  | create (sender : Address) (input : ExtInput) (proof : Proof)
  | rotate (sender : Address) (input : ExtInput) (proof : Proof)
  | store (sender : Address) (ciphertext : String)
  deriving Repr, DecidableEq

/-- The sender of a transaction. -/
def Tx.sender : Tx → Address
  | .create a _ _ => a
  | .rotate a _ _ => a
  | .store a _ => a

/-- Run one transaction against the ledger.  A reverting call leaves the
state unchanged (host-chain atomicity). -/
def exec (env : FHEEnv) (this : Address) (tx : Tx) (s : DVState) : DVState :=
  match tx with
  | .create sender input proof =>
    match createVault env this sender input proof s with
    | .ok (s2, _) => s2
    | .error _ => s
  | .rotate sender input proof =>
    match rotateVaultKey env this sender input proof s with
    | .ok (s2, _) => s2
    | .error _ => s
  | .store sender ciphertext =>
    match storeSecret sender ciphertext s with
    | .ok (s2, _) => s2
    | .error _ => s

/-- Run a list of transactions in order. -/
def execTrace (env : FHEEnv) (this : Address) (txs : List Tx) (s : DVState) : DVState :=
  txs.foldl (fun st tx => exec env this tx st) s

/-- Run a sequence of `storeSecret` calls by one sender, collecting the
emitted events; a revert aborts the whole sequence. -/
def storeAll (sender : Address) (msgs : List String) (s : DVState) :
    Except VaultError (DVState × List Event) :=
  match msgs with
  | [] => .ok (s, [])
  | m :: ms =>
    match storeSecret sender m s with
    | .error e => .error e
    | .ok (s2, ev) =>
      match storeAll sender ms s2 with
      | .error e => .error e
      | .ok (s3, evs) => .ok (s3, ev :: evs)

/-- State invariant: an owner whose vault is not initialized has an
empty ciphertext list. -/
def UninitEmpty (s : DVState) : Prop :=
  ∀ O : Address, (s.vaults O).initialized = false → (s.vaults O).ciphertexts = []

/-- Sample environment for concrete witnesses: every input validates to
handle 7. -/
def env0 : FHEEnv := ⟨fun _ _ => some 7⟩

/-- Sample state for witnesses: owner 1 has an initialized vault holding
key handle 3 and one stored ciphertext. -/
def s1 : DVState :=
  { vaults := fun a =>
      if a = 1 then { encryptedKey := 3, initialized := true, ciphertexts := ["c0"] } else {},
    acl := fun _ => [] }

/-- Sample state for witnesses: owner 1 has an initialized vault with no
stored ciphertexts. -/
def sEmptyVault : DVState :=
  { vaults := fun a =>
      if a = 1 then { encryptedKey := 3, initialized := true, ciphertexts := [] } else {},
    acl := fun _ => [] }

end DarkVault

namespace VaultApp

/-!
## Client cipher flow (`VaultApp.tsx`)

`encryptSecret` / `decryptSecret` derive an AES-GCM key from the
lowercased vault-key address via SHA-256 and wrap the ciphertext in a
versioned envelope `"dv1:<base64 iv>:<base64 payload>"`.  The Web Crypto
primitives (SHA-256, AES-GCM, `btoa`/`atob` composed with the byte
helpers, UTF-8 text codecs) are external collaborators and are modelled
by an abstract `SubtleCrypto` bundle carrying the contracts the platform
guarantees; the envelope handling itself is embedded concretely. -/

/-- JavaScript `String.prototype.split` with a one-character separator,
on the character list: splits at every occurrence, keeping empty
fields. -/
def splitChar (c : Char) : List Char → List (List Char)
  | [] => [[]]
  | a :: as =>
    if a = c then [] :: splitChar c as
    else
      match splitChar c as with
      | [] => [[a]]
      | b :: bs => (a :: b) :: bs

/-- JavaScript `payload.split(':')` on Lean strings. -/
def jsSplit (s : String) : List String :=
  (splitChar ':' s.data).map fun l => ⟨l⟩

/-- The Web Crypto / platform primitives consumed by the client cipher,
with the contracts the code relies on: AES-GCM authenticated encryption
(round trip under the same key, rejection under a different key, a
nonempty ciphertext because of the appended tag), base64 (`btoa` over
the byte-to-binary-string helper: invertible, colon-free, nonempty on
nonempty input) and UTF-8 text encoding (decode inverts encode). -/
structure SubtleCrypto where
  sha256 : List Nat → List Nat
  enc : List Nat → List Nat → List Nat → List Nat
  dec : List Nat → List Nat → List Nat → Option (List Nat)
  btoa : List Nat → String
  atob : String → Option (List Nat)
  textEncode : String → List Nat
  textDecode : List Nat → String

/-- The contracts the client code relies on from the platform
primitives: AES-GCM round trip and authenticated rejection of a foreign
key, a nonempty ciphertext (appended tag), base64 invertibility with a
colon-free nonempty output, and UTF-8 decode inverting encode. -/
structure SubtleCryptoOk (C : SubtleCrypto) : Prop where
  dec_enc : ∀ k iv m, C.dec k iv (C.enc k iv m) = some m
  dec_wrong : ∀ k k2 iv m, k2 ≠ k → C.dec k2 iv (C.enc k iv m) = none
  enc_ne_nil : ∀ k iv m, C.enc k iv m ≠ []
  atob_btoa : ∀ b, C.atob (C.btoa b) = some b
  btoa_no_colon : ∀ b, ':' ∉ (C.btoa b).data
  btoa_ne_empty : ∀ b, b ≠ [] → C.btoa b ≠ ""
  textDecode_encode : ∀ t, C.textDecode (C.textEncode t) = t

/-- JavaScript `String.prototype.toLowerCase` on the character list
(the addresses in play are ASCII hex strings). -/
def jsToLowerCase (s : String) : String := ⟨s.data.map Char.toLower⟩

/-- Model of `deriveKey(address)`: SHA-256 of the UTF-8 bytes of the lowercased
address, used as AES-GCM key material. -/
def deriveKey (C : SubtleCrypto) (address : String) : List Nat :=
  C.sha256 (C.textEncode (jsToLowerCase address))

/-- Model of `encryptSecret(address, plaintext)` with the randomly drawn 12-byte
`iv` made explicit: AES-GCM-encrypt the UTF-8 plaintext under the
derived key and produce `"dv1:" + base64(iv) + ":" + base64(payload)`. -/
def encryptSecret (C : SubtleCrypto) (iv : List Nat) (address plaintext : String) : String :=
  let key := deriveKey C address
  let encrypted := C.enc key iv (C.textEncode plaintext)
  let payload := C.btoa encrypted
  "dv1:" ++ C.btoa iv ++ ":" ++ payload

/-- Model of `decryptSecret(address, payload)`: split the envelope on `':'`,
reject it unless the version tag is `dv1` and both fields are present
and nonempty, then base64-decode and AES-GCM-decrypt with the key
derived from `address`; any thrown error is `none`. -/
def decryptSecret (C : SubtleCrypto) (address payload : String) : Option String :=
  let parts := jsSplit payload
  let pfx := parts.getD 0 ""
  let ivValue := parts.getD 1 ""
  let dataValue := parts.getD 2 ""
  if pfx = "dv1" ∧ ivValue ≠ "" ∧ dataValue ≠ "" then
    let key := deriveKey C address
    match C.atob ivValue, C.atob dataValue with
    | some iv, some data =>
      match C.dec key iv data with
      | some m => some (C.textDecode m)
      | none => none
    | _, _ => none
  else
    none

namespace Toy

/-- Unary marker encoding of one byte (used by the concrete witness
codec): `n` letters `a` followed by one `b`. -/
def natMark (n : Nat) : List Char := List.replicate n 'a' ++ ['b']

/-- Concrete byte-list-to-string codec standing in for base64. -/
def btoaFun (b : List Nat) : String := ⟨(b.map natMark).flatten⟩

/-- Read one unary marker off the front of a character list. -/
def countA : List Char → Option (Nat × List Char)
  | [] => none
  | ch :: rest =>
    if ch = 'a' then (countA rest).map fun p => (p.1 + 1, p.2)
    else if ch = 'b' then some (0, rest)
    else none

/-- Fuelled decoder for sequences of unary markers. -/
def decodeMarks : Nat → List Char → Option (List Nat)
  | _, [] => some []
  | 0, _ :: _ => none
  | fuel + 1, ch :: rest =>
    match countA (ch :: rest) with
    | none => none
    | some (n, r) => (decodeMarks fuel r).map fun ns => n :: ns

/-- Concrete inverse of `btoaFun`. -/
def atobFun (s : String) : Option (List Nat) := decodeMarks s.data.length s.data

/-- Concrete authenticated cipher standing in for AES-GCM: prepend the
key, length-tagged so that decryption under any other key fails. -/
def encFun (k _iv m : List Nat) : List Nat := k.length :: (k ++ m)

/-- Concrete decryption: check the length-tagged key prefix. -/
def decFun (k _iv c : List Nat) : Option (List Nat) :=
  if c.take (k.length + 1) = k.length :: k then some (c.drop (k.length + 1)) else none

/-- Concrete text encoder standing in for UTF-8. -/
def textEncodeFun (s : String) : List Nat := s.data.map Char.toNat

/-- Concrete text decoder standing in for UTF-8. -/
def textDecodeFun (l : List Nat) : String := ⟨l.map Char.ofNat⟩

/-- A fully concrete `SubtleCrypto` bundle, used to witness the
universally quantified cipher-flow theorems and to exhibit the
case-insensitivity counterexample. -/
def C0 : SubtleCrypto where
  sha256 := id
  enc := encFun
  dec := decFun
  btoa := btoaFun
  atob := atobFun
  textEncode := textEncodeFun
  textDecode := textDecodeFun

end Toy

theorem splitChar_of_not_mem {c : Char} {l : List Char} (h : c ∉ l) :
    splitChar c l = [l] := by
  induction l with
  | nil => rfl
  | cons a as ih =>
    have ha : a ≠ c := fun hac => h (hac ▸ List.mem_cons_self a as)
    have has : c ∉ as := fun hm => h (List.mem_cons_of_mem a hm)
    simp [splitChar, ha, ih has]

theorem splitChar_append {c : Char} {l1 : List Char} (l2 : List Char) (h : c ∉ l1) :
    splitChar c (l1 ++ c :: l2) = l1 :: splitChar c l2 := by
  induction l1 with
  | nil => simp [splitChar]
  | cons a as ih =>
    have ha : a ≠ c := fun hac => h (hac ▸ List.mem_cons_self a as)
    have has : c ∉ as := fun hm => h (List.mem_cons_of_mem a hm)
    simp only [List.cons_append, splitChar, if_neg ha]
    rw [show splitChar c (as.append (c :: l2)) = as :: splitChar c l2 from ih has]

namespace Toy

theorem countA_natMark (n : Nat) (rest : List Char) :
    countA (natMark n ++ rest) = some (n, rest) := by
  induction n with
  | zero => simp [natMark, countA]
  | succ n ih =>
    have : natMark (n + 1) ++ rest = 'a' :: (natMark n ++ rest) := by
      simp [natMark, List.replicate_succ]
    rw [this, countA, if_pos rfl, ih]
    rfl

theorem natMark_ne_nil (n : Nat) : natMark n ≠ [] := by
  simp [natMark]

theorem decodeMarks_encode (b : List Nat) :
    ∀ fuel, ((b.map natMark).flatten).length ≤ fuel →
      decodeMarks fuel ((b.map natMark).flatten) = some b := by
  induction b with
  | nil => intro fuel _; simp [decodeMarks]
  | cons n ns ih =>
    intro fuel h
    have hflat : ((n :: ns).map natMark).flatten
        = natMark n ++ (ns.map natMark).flatten := by simp
    rw [hflat] at h ⊢
    have hlen : (natMark n).length = n + 1 := by simp [natMark]
    obtain ⟨f, rfl⟩ : ∃ f, fuel = f + 1 := by
      cases fuel with
      | zero =>
        exfalso
        rw [List.length_append, hlen] at h
        omega
      | succ f => exact ⟨f, rfl⟩
    obtain ⟨ch, cs, hcons⟩ : ∃ ch cs, natMark n ++ (ns.map natMark).flatten = ch :: cs := by
      cases hm : natMark n with
      | nil => exact absurd hm (natMark_ne_nil n)
      | cons ch cs => exact ⟨ch, cs ++ (ns.map natMark).flatten, by simp [hm]⟩
    rw [hcons, decodeMarks, ← hcons, countA_natMark]
    have hrest : ((ns.map natMark).flatten).length ≤ f := by
      rw [List.length_append, hlen] at h
      omega
    show ((decodeMarks f ((ns.map natMark).flatten)).map fun l => n :: l) = some (n :: ns)
    rw [ih f hrest]
    rfl

theorem atobFun_btoaFun (b : List Nat) : atobFun (btoaFun b) = some b :=
  decodeMarks_encode b _ le_rfl

theorem mem_natMark {c : Char} {n : Nat} (h : c ∈ natMark n) : c = 'a' ∨ c = 'b' := by
  simp only [natMark, List.mem_append, List.mem_replicate, List.mem_singleton] at h
  tauto

theorem btoaFun_no_colon (b : List Nat) : ':' ∉ (btoaFun b).data := by
  intro h
  simp only [btoaFun, List.mem_flatten, List.mem_map] at h
  obtain ⟨l, ⟨n, _, rfl⟩, hc⟩ := h
  rcases mem_natMark hc with h1 | h1 <;> exact absurd h1 (by decide)

theorem btoaFun_ne_empty (b : List Nat) (hb : b ≠ []) : btoaFun b ≠ "" := by
  intro h
  have hd : ((b.map natMark).flatten) = [] := congrArg String.data h
  cases b with
  | nil => exact hb rfl
  | cons n ns =>
    rw [List.map_cons, List.flatten_cons, List.append_eq_nil] at hd
    exact natMark_ne_nil n hd.1

theorem decFun_encFun (k iv m : List Nat) : decFun k iv (encFun k iv m) = some m := by
  simp [decFun, encFun]

theorem decFun_wrong (k k2 iv m : List Nat) (h : k2 ≠ k) :
    decFun k2 iv (encFun k iv m) = none := by
  simp only [decFun, encFun, List.take_succ_cons, List.drop_succ_cons]
  rw [if_neg]
  intro hc
  obtain ⟨h1, h2⟩ := List.cons.inj hc
  apply h
  rw [← h2, ← h1, List.take_left]

theorem encFun_ne_nil (k iv m : List Nat) : encFun k iv m ≠ [] := by
  simp [encFun]

theorem textDecodeFun_encodeFun (s : String) : textDecodeFun (textEncodeFun s) = s := by
  have hmap : (textEncodeFun s).map Char.ofNat = s.data := by
    have hco : Char.ofNat ∘ Char.toNat = id := funext Char.ofNat_toNat
    rw [textEncodeFun, List.map_map, hco, List.map_id]
  simp only [textDecodeFun, hmap]

theorem C0_ok : SubtleCryptoOk C0 where
  dec_enc := decFun_encFun
  dec_wrong := decFun_wrong
  enc_ne_nil := encFun_ne_nil
  atob_btoa := atobFun_btoaFun
  btoa_no_colon := btoaFun_no_colon
  btoa_ne_empty := btoaFun_ne_empty
  textDecode_encode := textDecodeFun_encodeFun

end Toy

end VaultApp

namespace DarkVault

theorem allow_vaults (h : Handle) (a : Address) (s : DVState) :
    (allow h a s).vaults = s.vaults := rfl

theorem setVault_acl (sender : Address) (v : Vault) (s : DVState) :
    (setVault sender v s).acl = s.acl := rfl

theorem setVault_vaults_self (sender : Address) (v : Vault) (s : DVState) :
    (setVault sender v s).vaults sender = v := by
  simp [setVault]

theorem setVault_vaults_other {sender a : Address} (v : Vault) (s : DVState)
    (h : a ≠ sender) : (setVault sender v s).vaults a = s.vaults a := by
  simp [setVault, h]

theorem allow_acl_self (h : Handle) (a : Address) (s : DVState) :
    (allow h a s).acl h = a :: s.acl h := by
  simp [allow]

theorem allow_acl_mem {h h2 : Handle} {a b : Address} {s : DVState}
    (hm : b ∈ (allow h a s).acl h2) : b ∈ s.acl h2 ∨ b = a := by
  by_cases hh : h2 = h
  · subst hh
    rw [allow_acl_self] at hm
    rcases List.mem_cons.mp hm with h1 | h1
    · exact Or.inr h1
    · exact Or.inl h1
  · simp [allow, hh] at hm
    exact Or.inl hm

/-- Case analysis on one executed transaction: either it reverted and
the state is unchanged, or it is one of the three successful mutations
with its guard conditions and resulting state. -/
theorem exec_cases (env : FHEEnv) (this : Address) (tx : Tx) (s : DVState) :
    exec env this tx s = s
    ∨ (∃ sender input proof k, tx = Tx.create sender input proof
        ∧ env.fromExternal input proof = some k
        ∧ (s.vaults sender).initialized = false
        ∧ exec env this tx s = allow k sender (allow k this (setVault sender
            { s.vaults sender with encryptedKey := k, initialized := true } s)))
    ∨ (∃ sender input proof k, tx = Tx.rotate sender input proof
        ∧ env.fromExternal input proof = some k
        ∧ (s.vaults sender).initialized = true
        ∧ exec env this tx s = allow k sender (allow k this (setVault sender
            { s.vaults sender with encryptedKey := k } s)))
    ∨ (∃ sender ct, tx = Tx.store sender ct
        ∧ (s.vaults sender).initialized = true
        ∧ exec env this tx s = setVault sender
            { s.vaults sender with ciphertexts := (s.vaults sender).ciphertexts ++ [ct] } s) := by
  cases tx with
  | create sender input proof =>
    cases hv : (s.vaults sender).initialized with
    | true => left; simp [exec, createVault, hv]
    | false =>
      cases he : env.fromExternal input proof with
      | none => left; simp [exec, createVault, hv, he]
      | some k =>
        right; left
        exact ⟨sender, input, proof, k, rfl, he, hv, by simp [exec, createVault, hv, he]⟩
  | rotate sender input proof =>
    cases hv : (s.vaults sender).initialized with
    | false => left; simp [exec, rotateVaultKey, hv]
    | true =>
      cases he : env.fromExternal input proof with
      | none => left; simp [exec, rotateVaultKey, hv, he]
      | some k =>
        right; right; left
        exact ⟨sender, input, proof, k, rfl, he, hv, by simp [exec, rotateVaultKey, hv, he]⟩
  | store sender ct =>
    cases hv : (s.vaults sender).initialized with
    | false => left; simp [exec, storeSecret, hv]
    | true =>
      right; right; right
      exact ⟨sender, ct, rfl, hv, by simp [exec, storeSecret, hv]⟩

/-- C1: for every caller, `createVault` (on an input that validates to
handle `k`) succeeds exactly when the caller's vault is not yet
initialized; on success it stores the validated key and sets
`initialized` to true; when the vault already exists it fails with
`VaultAlreadyExists` and the transaction leaves the state — hence the
`getVaultKey` handle — entirely unchanged. -/
theorem createVault_spec (env : FHEEnv) (this sender : Address) (input : ExtInput)
    (proof : Proof) (s : DVState) (k : Handle)
    (hk : env.fromExternal input proof = some k) :
    ((∃ r, createVault env this sender input proof s = .ok r) ↔ hasVault s sender = false)
    ∧ (∀ s2 e, createVault env this sender input proof s = .ok (s2, e) →
        e = .VaultCreated sender ∧ getVaultKey s2 sender = k ∧ hasVault s2 sender = true)
    ∧ (hasVault s sender = true →
        createVault env this sender input proof s = .error .VaultAlreadyExists
        ∧ exec env this (.create sender input proof) s = s) := by
  cases hv : (s.vaults sender).initialized with
  | true =>
    refine ⟨⟨?_, ?_⟩, ?_, fun _ => ⟨by simp [createVault, hv], by simp [exec, createVault, hv]⟩⟩
    · rintro ⟨r, hr⟩
      simp [createVault, hv] at hr
    · intro hfalse
      rw [hasVault, hv] at hfalse
      cases hfalse
    · intro s2 e h
      simp [createVault, hv] at h
  | false =>
    have hok : createVault env this sender input proof s
        = .ok (allow k sender (allow k this (setVault sender
            { s.vaults sender with encryptedKey := k, initialized := true } s)),
          .VaultCreated sender) := by
      simp [createVault, hv, hk]
    refine ⟨⟨fun _ => by rw [hasVault, hv], fun _ => ⟨_, hok⟩⟩, ?_, ?_⟩
    · intro s2 e h
      rw [hok] at h
      simp only [Except.ok.injEq, Prod.mk.injEq] at h
      obtain ⟨rfl, rfl⟩ := h
      refine ⟨rfl, ?_, ?_⟩
      · simp [getVaultKey, allow, setVault]
      · simp [hasVault, allow, setVault]
    · intro ht
      rw [hasVault, hv] at ht
      cases ht

/-- Witness for C1 at concrete inputs: creation succeeds on a fresh
state and fails with `VaultAlreadyExists` on owner 1's existing vault. -/
theorem createVault_spec_witness :
    (hasVault initialState 1 = false
      ∧ ∃ r, createVault env0 100 1 5 [] initialState = Except.ok r)
    ∧ createVault env0 100 1 5 [] s1 = Except.error VaultError.VaultAlreadyExists :=
  ⟨⟨rfl, (createVault_spec env0 100 1 5 [] initialState 7 rfl).1.mpr rfl⟩,
   ((createVault_spec env0 100 1 5 [] s1 7 rfl).2.2 rfl).1⟩

/-- C3: for an uninitialized caller both `rotateVaultKey` and
`storeSecret` fail with `VaultMissing` and the transaction leaves the
state unchanged; for an initialized caller neither can fail with
`VaultMissing`. -/
theorem vaultMissing_spec (env : FHEEnv) (this sender : Address) (input : ExtInput)
    (proof : Proof) (ct : String) (s : DVState) :
    (hasVault s sender = false →
        rotateVaultKey env this sender input proof s = .error .VaultMissing
        ∧ storeSecret sender ct s = .error .VaultMissing
        ∧ exec env this (.rotate sender input proof) s = s
        ∧ exec env this (.store sender ct) s = s)
    ∧ (hasVault s sender = true →
        rotateVaultKey env this sender input proof s ≠ .error .VaultMissing
        ∧ storeSecret sender ct s ≠ .error .VaultMissing) := by
  constructor
  · intro h
    rw [hasVault] at h
    exact ⟨by simp [rotateVaultKey, h], by simp [storeSecret, h],
      by simp [exec, rotateVaultKey, h], by simp [exec, storeSecret, h]⟩
  · intro h
    rw [hasVault] at h
    constructor
    · cases he : env.fromExternal input proof with
      | none => simp [rotateVaultKey, h, he]
      | some k => simp [rotateVaultKey, h, he]
    · simp [storeSecret, h]

/-- Witness for C3: owner 2 (no vault) gets `VaultMissing` from both
mutators with no state change; owner 1 (existing vault) never sees
`VaultMissing`. -/
theorem vaultMissing_spec_witness :
    (rotateVaultKey env0 100 2 5 [] s1 = Except.error VaultError.VaultMissing
      ∧ storeSecret 2 "x" s1 = Except.error VaultError.VaultMissing
      ∧ exec env0 100 (Tx.rotate 2 5 []) s1 = s1
      ∧ exec env0 100 (Tx.store 2 "x") s1 = s1)
    ∧ (rotateVaultKey env0 100 1 5 [] s1 ≠ Except.error VaultError.VaultMissing
      ∧ storeSecret 1 "x" s1 ≠ Except.error VaultError.VaultMissing) :=
  ⟨(vaultMissing_spec env0 100 2 5 [] "x" s1).1 rfl,
   (vaultMissing_spec env0 100 1 5 [] "x" s1).2 rfl⟩

/-- C4: `getSecret(owner, index)` fails with `SecretIndexOutOfBounds`
exactly when `index >= getSecretCount(owner)` (in particular at index 0
for an uninitialized owner, whose count is 0), and otherwise returns the
stored ciphertext at that index; being a view it takes no state and
returns none. -/
theorem getSecret_spec (s : DVState) (owner : Address) (index : Nat) :
    (getSecret s owner index = .error .SecretIndexOutOfBounds
      ↔ getSecretCount s owner ≤ index)
    ∧ ∀ hi : index < getSecretCount s owner,
        getSecret s owner index = .ok ((s.vaults owner).ciphertexts.get ⟨index, hi⟩) := by
  constructor
  · by_cases hle : (s.vaults owner).ciphertexts.length ≤ index
    · simp [getSecret, getSecretCount, hle]
    · simp [getSecret, getSecretCount, hle]
  · intro hi
    rw [getSecretCount] at hi
    rw [getSecret, if_neg (by omega)]
    congr 1
    exact List.getD_eq_getElem _ _ hi

/-- Witness for C4: with one stored secret, index 1 is out of bounds and
index 0 returns the stored ciphertext; for a vaultless owner index 0 is
already out of bounds. -/
theorem getSecret_spec_witness :
    (getSecret s1 1 1 = Except.error VaultError.SecretIndexOutOfBounds
      ↔ getSecretCount s1 1 ≤ 1)
    ∧ getSecret s1 1 0 = Except.ok "c0"
    ∧ (getSecret initialState 2 0 = Except.error VaultError.SecretIndexOutOfBounds
      ↔ getSecretCount initialState 2 ≤ 0) :=
  ⟨(getSecret_spec s1 1 1).1, (getSecret_spec s1 1 0).2 (by decide),
   (getSecret_spec initialState 2 0).1⟩

/-- C6: a successful `rotateVaultKey` stores exactly the newly validated
handle as the encrypted key and leaves both the ciphertext list and the
`initialized` flag of the caller's vault unchanged. -/
theorem rotateVaultKey_frame (env : FHEEnv) (this sender : Address) (input : ExtInput)
    (proof : Proof) (s s2 : DVState) (e : Event)
    (h : rotateVaultKey env this sender input proof s = .ok (s2, e)) :
    ∃ k, env.fromExternal input proof = some k
      ∧ (s2.vaults sender).encryptedKey = k
      ∧ (s2.vaults sender).ciphertexts = (s.vaults sender).ciphertexts
      ∧ (s2.vaults sender).initialized = (s.vaults sender).initialized := by
  cases hv : (s.vaults sender).initialized with
  | false => simp [rotateVaultKey, hv] at h
  | true =>
    cases he : env.fromExternal input proof with
    | none => simp [rotateVaultKey, hv, he] at h
    | some k =>
      have hok : rotateVaultKey env this sender input proof s
          = .ok (allow k sender (allow k this (setVault sender
              { s.vaults sender with encryptedKey := k } s)), .VaultKeyRotated sender) := by
        simp [rotateVaultKey, hv, he]
      rw [hok] at h
      simp only [Except.ok.injEq, Prod.mk.injEq] at h
      obtain ⟨rfl, rfl⟩ := h
      exact ⟨k, rfl, by simp [allow, setVault], by simp [allow, setVault],
        by simpa [allow, setVault] using hv⟩

/-- Witness for C6 at a concrete rotation of owner 1's vault. -/
theorem rotateVaultKey_frame_witness :
    ∃ k, env0.fromExternal 5 [] = some k
      ∧ (((exec env0 100 (Tx.rotate 1 5 []) s1).vaults 1).encryptedKey = k
      ∧ ((exec env0 100 (Tx.rotate 1 5 []) s1).vaults 1).ciphertexts
          = (s1.vaults 1).ciphertexts
      ∧ ((exec env0 100 (Tx.rotate 1 5 []) s1).vaults 1).initialized
          = (s1.vaults 1).initialized) :=
  rotateVaultKey_frame env0 100 1 5 [] s1 (exec env0 100 (Tx.rotate 1 5 []) s1)
    (Event.VaultKeyRotated 1) rfl

/-- C7: a mutating call by one sender never changes any other owner's
vault record, whether the call succeeds or reverts. -/
theorem mutator_isolation (env : FHEEnv) (this : Address) (tx : Tx) (s : DVState)
    (D : Address) (h : Tx.sender tx ≠ D) :
    (exec env this tx s).vaults D = s.vaults D := by
  rcases exec_cases env this tx s with h1 | ⟨sender, i, p, k, rfl, _, _, h1⟩
      | ⟨sender, i, p, k, rfl, _, _, h1⟩ | ⟨sender, ct, rfl, _, h1⟩
  · rw [h1]
  · have hD : D ≠ sender := fun hd => h (by simp [Tx.sender, hd])
    rw [h1, allow_vaults, allow_vaults, setVault_vaults_other _ _ hD]
  · have hD : D ≠ sender := fun hd => h (by simp [Tx.sender, hd])
    rw [h1, allow_vaults, allow_vaults, setVault_vaults_other _ _ hD]
  · have hD : D ≠ sender := fun hd => h (by simp [Tx.sender, hd])
    rw [h1, setVault_vaults_other _ _ hD]

/-- Witness for C7: owner 2's `createVault` leaves owner 1's vault
record untouched. -/
theorem mutator_isolation_witness :
    (exec env0 100 (Tx.create 2 5 []) s1).vaults 1 = s1.vaults 1 :=
  mutator_isolation env0 100 (Tx.create 2 5 []) s1 1 (by decide)

/-- One transaction never resets an `initialized` flag (helper for C5). -/
theorem exec_hasVault_mono (env : FHEEnv) (this O : Address) (tx : Tx) (s : DVState)
    (h : hasVault s O = true) : hasVault (exec env this tx s) O = true := by
  rcases exec_cases env this tx s with h1 | ⟨sender, i, p, k, _, _, hinit, h1⟩
      | ⟨sender, i, p, k, _, _, hinit, h1⟩ | ⟨sender, ct, _, hinit, h1⟩
  · rwa [h1]
  all_goals
    rw [h1]
    by_cases hOs : O = sender
    · subst hOs
      simp [hasVault, allow_vaults, setVault_vaults_self, hinit]
    · rw [hasVault] at h ⊢
      simp only [allow_vaults]
      rwa [setVault_vaults_other _ _ hOs]

/-- C5: `hasVault(O)` is false at deployment and in every state reached
without a successful `createVault` by O, and once true it stays true
under every further transaction: the only step that can turn it on is a
successful `createVault` sent by O, and no step ever turns it off. -/
theorem hasVault_lifecycle_spec (env : FHEEnv) (this O : Address) :
    hasVault initialState O = false
    ∧ (∀ s txs, hasVault s O = true → hasVault (execTrace env this txs s) O = true)
    ∧ (∀ s tx, hasVault (exec env this tx s) O = true →
        hasVault s O = true
        ∨ ∃ input proof r, tx = Tx.create O input proof
            ∧ createVault env this O input proof s = .ok r) := by
  refine ⟨rfl, ?_, ?_⟩
  · intro s txs h
    induction txs generalizing s with
    | nil => exact h
    | cons tx txs ih => exact ih _ (exec_hasVault_mono env this O tx s h)
  · intro s tx h
    rcases exec_cases env this tx s with h1 | ⟨sender, i, p, k, htx, he, hinit, h1⟩
        | ⟨sender, i, p, k, htx, he, hinit, h1⟩ | ⟨sender, ct, htx, hinit, h1⟩
    · left; rwa [h1] at h
    · by_cases hOs : O = sender
      · subst hOs
        right
        refine ⟨i, p, (allow k O (allow k this (setVault O
            { s.vaults O with encryptedKey := k, initialized := true } s)),
          Event.VaultCreated O), htx, ?_⟩
        simp [createVault, hinit, he]
      · left
        rw [h1] at h
        rw [hasVault] at h ⊢
        simp only [allow_vaults] at h
        rwa [setVault_vaults_other _ _ hOs] at h
    · left
      by_cases hOs : O = sender
      · subst hOs; rw [hasVault, hinit]
      · rw [h1] at h
        rw [hasVault] at h ⊢
        simp only [allow_vaults] at h
        rwa [setVault_vaults_other _ _ hOs] at h
    · left
      by_cases hOs : O = sender
      · subst hOs; rw [hasVault, hinit]
      · rw [h1] at h
        rw [hasVault] at h ⊢
        rwa [setVault_vaults_other _ _ hOs] at h

/-- Witness for C5: owner 1's flag is on after creation and survives a
rotation and a store; the flag of the fresh ledger is off. -/
theorem hasVault_lifecycle_spec_witness :
    hasVault initialState 1 = false
    ∧ hasVault (execTrace env0 100 [Tx.rotate 1 5 [], Tx.store 1 "x"] s1) 1 = true :=
  ⟨(hasVault_lifecycle_spec env0 100 1).1,
   (hasVault_lifecycle_spec env0 100 1).2.1 s1 [Tx.rotate 1 5 [], Tx.store 1 "x"] rfl⟩

/-- C8: after every successful `createVault` or `rotateVaultKey`, the
grant set of the stored key handle contains the contract and the calling
owner, and no transaction ever extends any handle's grant set with an
identity other than the contract or the transaction's sender. -/
theorem acl_grants_spec (env : FHEEnv) (this : Address) :
    (∀ sender input proof s s2 e,
        createVault env this sender input proof s = .ok (s2, e) →
        this ∈ s2.acl (getVaultKey s2 sender) ∧ sender ∈ s2.acl (getVaultKey s2 sender))
    ∧ (∀ sender input proof s s2 e,
        rotateVaultKey env this sender input proof s = .ok (s2, e) →
        this ∈ s2.acl (getVaultKey s2 sender) ∧ sender ∈ s2.acl (getVaultKey s2 sender))
    ∧ (∀ tx s h2 a, a ∈ (exec env this tx s).acl h2 →
        a ∈ s.acl h2 ∨ a = this ∨ a = Tx.sender tx) := by
  refine ⟨?_, ?_, ?_⟩
  · intro sender input proof s s2 e h
    rcases hv : (s.vaults sender).initialized with _ | _
    · rcases he : env.fromExternal input proof with _ | k
      · simp [createVault, hv, he] at h
      · have hok : createVault env this sender input proof s
            = .ok (allow k sender (allow k this (setVault sender
                { s.vaults sender with encryptedKey := k, initialized := true } s)),
              .VaultCreated sender) := by
          simp [createVault, hv, he]
        rw [hok] at h
        simp only [Except.ok.injEq, Prod.mk.injEq] at h
        obtain ⟨rfl, rfl⟩ := h
        constructor <;> simp [getVaultKey, allow, setVault]
    · simp [createVault, hv] at h
  · intro sender input proof s s2 e h
    rcases hv : (s.vaults sender).initialized with _ | _
    · simp [rotateVaultKey, hv] at h
    · rcases he : env.fromExternal input proof with _ | k
      · simp [rotateVaultKey, hv, he] at h
      · have hok : rotateVaultKey env this sender input proof s
            = .ok (allow k sender (allow k this (setVault sender
                { s.vaults sender with encryptedKey := k } s)), .VaultKeyRotated sender) := by
          simp [rotateVaultKey, hv, he]
        rw [hok] at h
        simp only [Except.ok.injEq, Prod.mk.injEq] at h
        obtain ⟨rfl, rfl⟩ := h
        constructor <;> simp [getVaultKey, allow, setVault]
  · intro tx s h2 a hm
    rcases exec_cases env this tx s with h1 | ⟨sender, i, p, k, htx, he, hinit, h1⟩
        | ⟨sender, i, p, k, htx, he, hinit, h1⟩ | ⟨sender, ct, htx, hinit, h1⟩
    · left; rwa [h1] at hm
    · rw [h1] at hm
      rcases allow_acl_mem hm with hm1 | hm1
      · rcases allow_acl_mem hm1 with hm2 | hm2
        · left; rwa [setVault_acl] at hm2
        · right; left; exact hm2
      · right; right; rw [htx]; exact hm1
    · rw [h1] at hm
      rcases allow_acl_mem hm with hm1 | hm1
      · rcases allow_acl_mem hm1 with hm2 | hm2
        · left; rwa [setVault_acl] at hm2
        · right; left; exact hm2
      · right; right; rw [htx]; exact hm1
    · rw [h1] at hm
      left; rwa [setVault_acl] at hm

/-- Witness for C8: after owner 2 creates a vault on the fresh ledger,
the contract (100) and owner 2 are in the stored handle's grant set. -/
theorem acl_grants_spec_witness :
    100 ∈ (exec env0 100 (Tx.create 2 5 []) initialState).acl
        (getVaultKey (exec env0 100 (Tx.create 2 5 []) initialState) 2)
    ∧ 2 ∈ (exec env0 100 (Tx.create 2 5 []) initialState).acl
        (getVaultKey (exec env0 100 (Tx.create 2 5 []) initialState) 2) :=
  (acl_grants_spec env0 100).1 2 5 [] initialState
    (exec env0 100 (Tx.create 2 5 []) initialState) (Event.VaultCreated 2) rfl

/-- Running a batch of `storeSecret` calls on an initialized vault
succeeds, appends the batch in order, emits one `SecretStored` event per
call carrying the previous length as index, and keeps the vault
initialized (helper for C2). -/
theorem storeAll_ok (sender : Address) (msgs : List String) (s : DVState)
    (hinit : (s.vaults sender).initialized = true) :
    ∃ s2, storeAll sender msgs s = .ok (s2,
        (List.range msgs.length).map fun i =>
          Event.SecretStored sender ((s.vaults sender).ciphertexts.length + i))
      ∧ (s2.vaults sender).ciphertexts = (s.vaults sender).ciphertexts ++ msgs
      ∧ (s2.vaults sender).initialized = true := by
  induction msgs generalizing s with
  | nil => exact ⟨s, by simp [storeAll], by simp, hinit⟩
  | cons m ms ih =>
    have hstep : storeSecret sender m s = .ok (setVault sender
        { s.vaults sender with ciphertexts := (s.vaults sender).ciphertexts ++ [m] } s,
        .SecretStored sender (((s.vaults sender).ciphertexts ++ [m]).length - 1)) := by
      simp [storeSecret, hinit]
    have hinit2 : ((setVault sender
        { s.vaults sender with ciphertexts := (s.vaults sender).ciphertexts ++ [m] } s).vaults
          sender).initialized = true := by
      rw [setVault_vaults_self]; exact hinit
    obtain ⟨s2, hall, hc, hi⟩ := ih _ hinit2
    rw [setVault_vaults_self] at hc
    refine ⟨s2, ?_, ?_, hi⟩
    · show storeAll sender (m :: ms) s = _
      rw [storeAll, hstep]
      show (match storeAll sender ms _ with
        | .error e => Except.error e
        | .ok (s3, evs) => .ok (s3, _ :: evs)) = _
      rw [hall]
      show Except.ok _ = _
      refine congrArg _ (congrArg _ ?_)
      simp only [setVault_vaults_self, List.length_cons]
      rw [List.range_succ_eq_map, List.map_cons, List.map_map]
      refine congrArg₂ List.cons ?_ ?_
      · simp
      · refine congrArg₂ List.map (funext fun i => ?_) rfl
        simp only [Function.comp_apply, List.length_append, List.length_singleton,
          Event.SecretStored.injEq, true_and]
        omega
    · rw [hc, List.append_assoc]
      rfl

/-- C2: starting from an initialized empty vault, a batch of N
`storeSecret` calls by owner O succeeds, each call appends at the index
equal to the previous length (the emitted `SecretStored` events carry
indices 0..N-1 in order), `getSecretCount(O)` ends at N, and
`getSecret(O, i)` returns the i-th submitted ciphertext in submission
order for every i < N. -/
theorem storeSecret_sequence_spec (sender : Address) (msgs : List String) (s : DVState)
    (hinit : hasVault s sender = true) (hempty : (s.vaults sender).ciphertexts = []) :
    ∃ s2, storeAll sender msgs s
        = .ok (s2, (List.range msgs.length).map fun i => Event.SecretStored sender i)
      ∧ getSecretCount s2 sender = msgs.length
      ∧ ∀ i (hi : i < msgs.length), getSecret s2 sender i = .ok (msgs.get ⟨i, hi⟩) := by
  obtain ⟨s2, hall, hc, _⟩ := storeAll_ok sender msgs s (by rwa [hasVault] at hinit)
  rw [hempty] at hall hc
  rw [List.nil_append] at hc
  refine ⟨s2, ?_, ?_, ?_⟩
  · simpa using hall
  · simp only [getSecretCount, hc]
  · intro i hi
    rw [getSecret, if_neg (by simp only [hc]; omega)]
    rw [List.get_eq_getElem]
    congr 1
    rw [hc]
    exact List.getD_eq_getElem _ _ hi

/-- Witness for C2: storing "a" then "b" on owner 1's fresh vault gives
count 2, events with indices 0 and 1, and the two ciphertexts back in
order. -/
theorem storeSecret_sequence_spec_witness :
    ∃ s2, storeAll 1 ["a", "b"] sEmptyVault
        = Except.ok (s2, [Event.SecretStored 1 0, Event.SecretStored 1 1])
      ∧ getSecretCount s2 1 = 2
      ∧ getSecret s2 1 0 = Except.ok "a" ∧ getSecret s2 1 1 = Except.ok "b" := by
  obtain ⟨s2, hall, hc, hg⟩ := storeSecret_sequence_spec 1 ["a", "b"] sEmptyVault rfl rfl
  exact ⟨s2, hall, hc, hg 0 (by decide), hg 1 (by decide)⟩

/-- The fresh ledger satisfies the uninitialized-vaults-are-empty
invariant (helper for C10). -/
theorem uninitEmpty_initial : UninitEmpty initialState :=
  fun _ _ => rfl

/-- One transaction preserves the uninitialized-vaults-are-empty
invariant (helper for C10). -/
theorem exec_preserves_uninitEmpty (env : FHEEnv) (this : Address) (tx : Tx)
    (s : DVState) (h : UninitEmpty s) : UninitEmpty (exec env this tx s) := by
  intro O
  rcases exec_cases env this tx s with h1 | ⟨sender, i, p, k, htx, he, hinit, h1⟩
      | ⟨sender, i, p, k, htx, he, hinit, h1⟩ | ⟨sender, ct, htx, hinit, h1⟩
  · rw [h1]; exact h O
  all_goals
    rw [h1]
    by_cases hOs : O = sender
    · subst hOs
      simp only [allow_vaults, setVault_vaults_self]
      intro hfalse
      simp [hinit] at hfalse
    · simp only [allow_vaults]
      rw [setVault_vaults_other _ _ hOs]
      exact h O

/-- Every reachable ledger state satisfies the invariant (helper for
C10). -/
theorem execTrace_uninitEmpty (env : FHEEnv) (this : Address) (txs : List Tx) :
    UninitEmpty (execTrace env this txs initialState) := by
  suffices hgen : ∀ s, UninitEmpty s → UninitEmpty (execTrace env this txs s) from
    hgen initialState uninitEmpty_initial
  induction txs with
  | nil => exact fun s hs => hs
  | cons tx txs ih => exact fun s hs => ih _ (exec_preserves_uninitEmpty env this tx s hs)

/-- C10: in every reachable ledger state, an owner without a vault has
an empty ciphertext sequence: `getSecretCount` is 0 and every
`getSecret` index fails with `SecretIndexOutOfBounds`. -/
theorem uninit_empty_spec (env : FHEEnv) (this : Address) (txs : List Tx) (O : Address)
    (h : hasVault (execTrace env this txs initialState) O = false) :
    getSecretCount (execTrace env this txs initialState) O = 0
    ∧ ∀ i, getSecret (execTrace env this txs initialState) O i
        = .error .SecretIndexOutOfBounds := by
  have hempty := execTrace_uninitEmpty env this txs O (by rwa [hasVault] at h)
  refine ⟨by rw [getSecretCount, hempty]; rfl, fun i => ?_⟩
  rw [getSecret, if_pos]
  rw [hempty]
  exact Nat.zero_le i

/-- Witness for C10: after a trace in which owner 1 creates a vault and
stores a secret, vaultless owner 2 still has count 0 and an
out-of-bounds failure at index 0. -/
theorem uninit_empty_spec_witness :
    getSecretCount (execTrace env0 100 [Tx.create 1 5 [], Tx.store 1 "a"] initialState) 2 = 0
    ∧ getSecret (execTrace env0 100 [Tx.create 1 5 [], Tx.store 1 "a"] initialState) 2 0
        = Except.error VaultError.SecretIndexOutOfBounds := by
  have h := uninit_empty_spec env0 100 [Tx.create 1 5 [], Tx.store 1 "a"] 2 rfl
  exact ⟨h.1, h.2 0⟩

end DarkVault

namespace VaultApp

/-- Splitting the envelope on `':'` recovers its three fields, since the
base64 fields contain no colon. -/
theorem jsSplit_envelope (s1 s2 : String) (h1 : ':' ∉ s1.data) (h2 : ':' ∉ s2.data) :
    jsSplit ("dv1:" ++ s1 ++ ":" ++ s2) = ["dv1", s1, s2] := by
  have hdata : ("dv1:" ++ s1 ++ ":" ++ s2).data
      = ['d', 'v', '1'] ++ ':' :: (s1.data ++ ':' :: s2.data) := by
    show (("dv1:".data ++ s1.data) ++ ":".data) ++ s2.data = _
    rw [List.append_assoc, List.append_assoc]
    rfl
  rw [jsSplit, hdata, splitChar_append _ (by decide), splitChar_append _ h1,
    splitChar_of_not_mem h2]
  rfl

/-- Full evaluation of `decryptSecret` on an `encryptSecret` envelope:
the result is the original plaintext when the two derived keys agree and
a failure otherwise (helper for C9). -/
theorem decryptSecret_encryptSecret {C : SubtleCrypto} (hC : SubtleCryptoOk C)
    (iv : List Nat) (hiv : iv ≠ []) (addr addr2 pt : String) :
    decryptSecret C addr2 (encryptSecret C iv addr pt)
      = if deriveKey C addr2 = deriveKey C addr then some pt else none := by
  have henc := hC.enc_ne_nil (deriveKey C addr) iv (C.textEncode pt)
  simp only [encryptSecret, decryptSecret]
  rw [jsSplit_envelope _ _ (hC.btoa_no_colon iv) (hC.btoa_no_colon _)]
  rw [if_pos ⟨rfl, hC.btoa_ne_empty iv hiv, hC.btoa_ne_empty _ henc⟩]
  rw [show ["dv1", C.btoa iv,
        C.btoa (C.enc (deriveKey C addr) iv (C.textEncode pt))].getD 1 ""
      = C.btoa iv from rfl,
    show ["dv1", C.btoa iv,
        C.btoa (C.enc (deriveKey C addr) iv (C.textEncode pt))].getD 2 ""
      = C.btoa (C.enc (deriveKey C addr) iv (C.textEncode pt)) from rfl]
  simp only [hC.atob_btoa]
  by_cases hk : deriveKey C addr2 = deriveKey C addr
  · rw [if_pos hk, hk]
    simp only [hC.dec_enc, hC.textDecode_encode]
  · rw [if_neg hk]
    simp only [hC.dec_wrong _ _ _ _ hk]

/-- C9 counterexample: the claim "decrypting with a key derived from a
different address fails or yields non-matching plaintext" is false as
stated — key derivation lowercases the address, so the distinct address
string "0xab" decrypts a ciphertext produced under "0xAB" and recovers
the plaintext exactly. -/
theorem decryptSecret_case_counterexample :
    ("0xAB" : String) ≠ "0xab"
    ∧ decryptSecret Toy.C0 "0xab"
        (encryptSecret Toy.C0 (List.replicate 12 0) "0xAB" "hi") = some "hi" := by
  constructor
  · decide
  · have hkey : deriveKey Toy.C0 "0xab" = deriveKey Toy.C0 "0xAB" := by decide
    rw [decryptSecret_encryptSecret Toy.C0_ok (List.replicate 12 0) (by decide)
      "0xAB" "0xab" "hi", if_pos hkey]

/-- C9 (amended): for every cipher bundle satisfying the platform
contracts, every 12-byte iv, address and plaintext, decrypting the
tagged ciphertext with the same address recovers the plaintext exactly;
decrypting with an address whose derived key differs (addresses equal up
to letter case derive the same key) fails. -/
theorem encryptSecret_roundtrip_spec {C : SubtleCrypto} (hC : SubtleCryptoOk C)
    (iv : List Nat) (hiv : iv.length = 12) (addr addr2 pt : String) :
    decryptSecret C addr (encryptSecret C iv addr pt) = some pt
    ∧ (deriveKey C addr2 ≠ deriveKey C addr →
        decryptSecret C addr2 (encryptSecret C iv addr pt) = none) := by
  have hiv2 : iv ≠ [] := by
    intro h
    rw [h] at hiv
    cases hiv
  constructor
  · rw [decryptSecret_encryptSecret hC iv hiv2 addr addr pt, if_pos rfl]
  · intro hk
    rw [decryptSecret_encryptSecret hC iv hiv2 addr addr2 pt, if_neg hk]

/-- Witness for amended C9 on the concrete codec: round trip under "a",
failure under "b" whose derived key differs. -/
theorem encryptSecret_roundtrip_spec_witness :
    decryptSecret Toy.C0 "a" (encryptSecret Toy.C0 (List.replicate 12 0) "a" "hi")
      = some "hi"
    ∧ decryptSecret Toy.C0 "b" (encryptSecret Toy.C0 (List.replicate 12 0) "a" "hi")
      = none :=
  ⟨(encryptSecret_roundtrip_spec Toy.C0_ok (List.replicate 12 0) (by decide) "a" "b" "hi").1,
   (encryptSecret_roundtrip_spec Toy.C0_ok (List.replicate 12 0) (by decide) "a" "b" "hi").2
     (by decide)⟩

end VaultApp
